import Mathlib

/-!
# Verification of `timeit_compare` (shallow embedding)

This file embeds the measurement-and-reporting engine of the `timeit_compare`
package (`src/timeit_compare/__init__.py`, version 1.3.0, which is the current
implementation; the top-level `src/timeit_compare.py` is the legacy duplicate of
the same design) and proves properties of the embedding.

Modelling conventions:
* Python floats are modelled as rationals (`ℚ`); the code only adds, divides
  and compares measured durations, so exact rational arithmetic is the
  idealisation of the float computations the spec describes.
* The wall-clock/timing primitive `timeit.Timer.timeit` is an external
  collaborator (out of scope per the spec): each call to it is modelled by an
  oracle `ℕ → TimeitEv` giving, for the i-th call made during a run, either the
  elapsed time it returned, a `KeyboardInterrupt`, or a statement error.
* Python exceptions are values of `PyExc`; a function that can raise returns
  `Except PyExc _`.
* `while` loops take a fuel parameter; running out of fuel is a separate
  outcome that no theorem counts as evidence.
-/

/-- Python exception kinds distinguished by the code under verification. -/
inductive PyExc where
  | typeError
  | valueError
  | keyError
  | keyboardInterrupt
  | other
deriving DecidableEq, Repr

/-- A Python argument value as far as the `run` validation prologue can
distinguish it: an `int`, a `float`, or anything else. -/
inductive PyArg where
  | vint (z : ℤ)
  | vfloat (q : ℚ)
  | vother
deriving DecidableEq, Repr

/-- `isinstance(x, int)` view of an argument. -/
def pyIntArg : PyArg → Option ℤ
  | .vint z => some z
  | _ => none

/-- `isinstance(x, (float, int))` view of an argument. -/
def pyRealArg : PyArg → Option ℚ
  | .vint z => some (z : ℚ)
  | .vfloat q => some q
  | .vother => none

/-- Python `int(q)`: truncation toward zero. -/
def pyInt (q : ℚ) : ℤ :=
  if 0 ≤ q then ⌊q⌋ else -⌊-q⌋

/-- Python `round(q)` on a real value: round half to even (banker's rounding). -/
def pyRound (q : ℚ) : ℤ :=
  let f := ⌊q⌋
  let r := q - (f : ℚ)
  if r < 1/2 then f
  else if (1/2 : ℚ) < r then f + 1
  else if f % 2 = 0 then f else f + 1

/-! ## The statistics evaluator `_stat_call`

`_stat_call(func, time)` calls a user-supplied aggregation function inside
`try`: if the call raises, or returns a value that is not a `float`/`int`,
the result is `None` (the "unavailable" marker); otherwise it is the returned
number.  A Python call outcome is modelled by `PyOutcome`. -/

/-- The value a Python callable returns: a real number (`float`/`int`) or
anything else. -/
inductive PyVal where
  | num (q : ℚ)
  | nonNum
deriving DecidableEq, Repr

/-- Outcome of calling a Python function: it returns a value or raises. -/
inductive PyOutcome where
  | ret (v : PyVal)
  | raise
deriving DecidableEq, Repr

/-- A user-supplied aggregation function: from the duration sequence to a call
outcome. -/
def StatFn : Type := List ℚ → PyOutcome

/-- Embedding of `_stat_call` (src/timeit_compare/__init__.py lines 56-63):
```
def _stat_call(func, time):
    try:
        value = func(time)
        if isinstance(value, (float, int)):
            return value
    except:
        pass
```
Falling off the end of the function returns `None`. -/
def stat_call (func : StatFn) (time : List ℚ) : Option ℚ :=
  match func time with
  | .ret (.num q) => some q
  | .ret .nonNum => none
  | .raise => none

/-- **C4.** For every aggregation function and every duration sequence,
`_stat_call` never raises (it is a total function of the call's outcome): if
the function raises, or returns a value that is not a real number, the result
is the unavailable marker `None`; if it returns a `float`/`int`, that value is
the result. -/
theorem stat_call_total_spec (func : StatFn) (time : List ℚ) :
    (∀ q : ℚ, func time = .ret (.num q) → stat_call func time = some q) ∧
    (func time = .raise → stat_call func time = none) ∧
    (func time = .ret .nonNum → stat_call func time = none) := by
  refine ⟨fun q h => ?_, fun h => ?_, fun h => ?_⟩ <;>
    simp only [stat_call, h]

/-- Witness for C4 at concrete aggregation functions: one returning the number
3, one raising, one returning a non-numeric value. -/
theorem stat_call_total_spec_witness :
    stat_call (fun _ => .ret (.num 3)) [] = some 3 ∧
    stat_call (fun _ => .raise) [] = none ∧
    stat_call (fun _ => .ret .nonNum) [] = none :=
  ⟨(stat_call_total_spec (fun _ => .ret (.num 3)) []).1 3 rfl,
   (stat_call_total_spec (fun _ => .raise) []).2.1 rfl,
   (stat_call_total_spec (fun _ => .ret .nonNum) []).2.2 rfl⟩

/-! ## Timers and the `Compare` state

`_Timer` (src/timeit_compare/__init__.py lines 66-104) carries an id, the
duration tuple `time`, the unnormalized `total_time`, the per-timer `stats`
dict and the cached result `_result`.  Python dicts preserve insertion order,
so dicts are association lists here; assigning to an existing key keeps its
position.  The statement/setup/namespace fields only matter for display labels
and for the external timing primitive, so they are not part of the state. -/

structure PyTimer where
  id : ℕ
  time : List ℚ
  total_time : ℚ
  stats : List (String × Option ℚ)
  cachedResult : Bool

/-- Python dict assignment `d[k] = v`: overwrite in place if the key exists
(keeping its position), else append. -/
def dictSet {α : Type} (l : List (String × α)) (k : String) (v : α) :
    List (String × α) :=
  if l.any (fun p => p.1 = k) then
    l.map (fun p => if p.1 = k then (k, v) else p)
  else l ++ [(k, v)]

/-- `timer.stats[name]` (missing key read as unavailable; the class invariant
keeps every registered stat present in every timer's dict). -/
def statOf (t : PyTimer) (name : String) : Option ℚ :=
  match t.stats.lookup name with
  | some v => v
  | none => none

/-- The `Compare` instance state: the registered timers (in registration
order), the registered statistics `_stats` (name and aggregation function, in
insertion order) and the stored iteration count `_number`. -/
structure CompareState where
  timers : List PyTimer
  statsReg : List (String × StatFn)
  number : ℤ

/-- Recompute a timer's stats dict from a duration sequence: one
`_stat_call` per registered statistic, in registry order
(src/timeit_compare/__init__.py lines 359-360). -/
def recomputeStats (reg : List (String × StatFn)) (time : List ℚ) :
    List (String × Option ℚ) :=
  reg.map (fun p => (p.1, stat_call p.2 time))

/-! ## The run protocol (`Compare.run`, lines 274-365)

Each call of the external timing primitive `timer.timeit(n)` consumes the next
event of the oracle: a duration, a `KeyboardInterrupt`, or a statement
execution error. -/

/-- What one call of the external timing primitive does. -/
inductive TimeitEv where
  | ok (d : ℚ)
  | interrupt
  | err
deriving Repr

/-- One calibration pass of the estimation loop (lines 328-330): call
`timer.timeit(n)` for every timer in order, summing the elapsed times into
`t`; an exception aborts the pass.  Returns the sum and the next oracle
index. -/
def passCalls (oracle : ℕ → TimeitEv) : ℕ → ℕ → ℚ → Except PyExc (ℚ × ℕ)
  | c, 0, t => .ok (t, c)
  | c, k + 1, t =>
    match oracle c with
    | .ok d => passCalls oracle (c + 1) k (t + d)
    | .interrupt => .error .keyboardInterrupt
    | .err => .error .other

/-- The estimation loop's growth rule (line 334):
`n = int(n * 0.25 / t) + 1 if t else n * 2`. -/
def nextN (n : ℤ) (t : ℚ) : ℤ :=
  if t = 0 then n * 2 else pyInt ((n : ℚ) * (1/4) / t) + 1

/-- Outcome of the estimation loop. -/
inductive EstOut where
  | done (number : ℤ) (c : ℕ)
  | exc (e : PyExc)
  | fuelOut
deriving Repr

/-- The `number` estimation loop (lines 326-334), for `k` selected timers:
```
n = 1
while True:
    t = 0.0
    for timer in new:
        t += timer.timeit(n)
    if t > 0.2:
        number = max(round(n * time / t / repeat), 1)
        break
    n = int(n * 0.25 / t) + 1 if t else n * 2
```
`timeB` is the `time` argument (the time budget) and `rep` the clamped
`repeat`. -/
def estimateLoop (oracle : ℕ → TimeitEv) (k : ℕ) (timeB : ℚ) (rep : ℤ) :
    ℕ → ℤ → ℕ → EstOut
  | 0, _, _ => .fuelOut
  | fuel + 1, n, c =>
    match passCalls oracle c k 0 with
    | .error e => .exc e
    | .ok (t, c') =>
      if 1/5 < t then .done (max (pyRound ((n : ℚ) * timeB / t / (rep : ℚ))) 1) c'
      else estimateLoop oracle k timeB rep fuel (nextN n t) c'

/-- The sequence of iteration counts `n` at which the estimation loop actually
executes a calibration pass (instrumented view of `estimateLoop`; the loop
body and stop condition are identical). -/
def estimateNs (oracle : ℕ → TimeitEv) (k : ℕ) : ℕ → ℤ → ℕ → List ℤ
  | 0, _, _ => []
  | fuel + 1, n, c =>
    n :: (match passCalls oracle c k 0 with
      | .error _ => []
      | .ok (t, c') =>
        if 1/5 < t then [] else estimateNs oracle k fuel (nextN n t) c')

/-- The per-timer slot of the temporary `new` dict (lines 312-320): the
accumulated normalized durations and the unnormalized total. -/
structure Slot where
  time : List ℚ
  total_time : ℚ
deriving DecidableEq, Repr

/-- One trial of the measuring loop (lines 343-347): for each timer in order,
`t = timer.timeit(number)`, append `t / number` to the slot's durations and
add `t` to its total.  On an exception the already-updated slots are kept and
the exception is reported. -/
def trialLoop (oracle : ℕ → TimeitEv) (number : ℤ) :
    List Slot → ℕ → List Slot × Except PyExc ℕ
  | [], c => ([], .ok c)
  | s :: rest, c =>
    match oracle c with
    | .ok d =>
      let s' : Slot := ⟨s.time ++ [d / (number : ℚ)], s.total_time + d⟩
      let r := trialLoop oracle number rest (c + 1)
      (s' :: r.1, r.2)
    | .interrupt => (s :: rest, .error .keyboardInterrupt)
    | .err => (s :: rest, .error .other)

/-- The measuring loop (lines 342-347): `repeat` trials over all slots. -/
def measureLoop (oracle : ℕ → TimeitEv) (number : ℤ) :
    ℕ → List Slot → ℕ → List Slot × Except PyExc ℕ
  | 0, slots, c => (slots, .ok c)
  | r + 1, slots, c =>
    match trialLoop oracle number slots c with
    | (slots', .error e) => (slots', .error e)
    | (slots', .ok c') => measureLoop oracle number r slots' c'

/-- Finalization (lines 357-365): freeze each slot's durations, recompute each
timer's stats dict from them, copy the slots onto the timers and store the
iteration count.  The cached `_result` is left untouched (the merge writes a
`_results` key, line 317, which is not the `_result` attribute). -/
def finalizeRun (s : CompareState) (slots : List Slot) (number : ℤ) :
    CompareState :=
  { s with
    timers := (s.timers.zip slots).map (fun p =>
      { p.1 with
        time := p.2.time
        total_time := p.2.total_time
        stats := recomputeStats s.statsReg p.2.time })
    number := number }

/-- The control-flow skeleton of `Compare.run` after argument validation,
before the `except KeyboardInterrupt` dispatch: what the try-block produced. -/
inductive RunCore where
  | emptyTimers
  | okc (slots : List Slot) (number : ℤ)
  | interruptedEst (number0 : ℤ)
  | interruptedMeas (slots : List Slot) (number : ℤ)
  | errc (e : PyExc)
  | fuelOut

/-- The body of `Compare.run` (lines 304-347) for already-validated arguments:
early return when no timer is registered; estimation when `number <= 0`; then
the measuring loop over fresh slots.  `interruptedEst` records an interrupt
during estimation (the slots are still all empty and the local `number` still
holds the caller's value); `interruptedMeas` one during measuring. -/
def runCore (s : CompareState) (rep num0 : ℤ) (timeB : ℚ)
    (oracle : ℕ → TimeitEv) (fuel : ℕ) : RunCore :=
  if s.timers.isEmpty then .emptyTimers
  else
    let slots0 : List Slot := s.timers.map (fun _ => ⟨[], 0⟩)
    if num0 ≤ 0 then
      match estimateLoop oracle s.timers.length timeB rep fuel 1 0 with
      | .fuelOut => .fuelOut
      | .exc .keyboardInterrupt => .interruptedEst num0
      | .exc e => .errc e
      | .done number c =>
        match measureLoop oracle number rep.toNat slots0 c with
        | (slots', .ok _) => .okc slots' number
        | (slots', .error .keyboardInterrupt) => .interruptedMeas slots' number
        | (_, .error e) => .errc e
    else
      match measureLoop oracle num0 rep.toNat slots0 0 with
      | (slots', .ok _) => .okc slots' num0
      | (slots', .error .keyboardInterrupt) => .interruptedMeas slots' num0
      | (_, .error e) => .errc e

/-- Outcome of `Compare.run`: normal return with the updated state, an
interrupt captured (`_catch_interrupt` was set by the convenience entry
point) with the partially-updated state, or an exception propagated to the
caller with the state exactly as it was. -/
inductive RunOutcome where
  | ok (s : CompareState)
  | caught (s : CompareState)
  | raised (e : PyExc) (s : CompareState)
  | fuelOut

/-- Embedding of `Compare.run` (lines 274-365).  `catchInt` is
`hasattr(self, '_catch_interrupt')` (line 322): true only under the
convenience entry point `compare`.  Validation: `repeat` and `number` must be
`int` and `time` a real number (`TypeError` otherwise, raised before anything
runs); `repeat < 1` is clamped to 1 and `time < 0.0` to 0.0 — no exception.
A `KeyboardInterrupt` in the try-block is re-raised when `catchInt` is false,
otherwise stored and the run finalized on the partial data. -/
def Compare.runM (s : CompareState) (catchInt : Bool)
    (repeatA numberA timeA : PyArg) (oracle : ℕ → TimeitEv) (fuel : ℕ) :
    RunOutcome :=
  match pyIntArg repeatA with
  | none => .raised .typeError s
  | some rep0 =>
    match pyIntArg numberA with
    | none => .raised .typeError s
    | some num0 =>
      match pyRealArg timeA with
      | none => .raised .typeError s
      | some t0 =>
        let rep := if rep0 < 1 then 1 else rep0
        let timeB := if t0 < 0 then 0 else t0
        match runCore s rep num0 timeB oracle fuel with
        | .emptyTimers => .ok s
        | .okc slots number => .ok (finalizeRun s slots number)
        | .interruptedEst number0 =>
          if catchInt then
            .caught (finalizeRun s (s.timers.map (fun _ => ⟨[], 0⟩)) number0)
          else .raised .keyboardInterrupt s
        | .interruptedMeas slots number =>
          if catchInt then .caught (finalizeRun s slots number)
          else .raised .keyboardInterrupt s
        | .errc e => .raised e s
        | .fuelOut => .fuelOut

/-! ## Reporting (`print_results`, lines 426-536)

String formatting (`format_time`, `format_percentage`, the box-drawing table)
is display-only; the rows are modelled at the numeric level: for each
displayed timer, its id, its per-stat values, and — for percentage-annotated
stats — the ratio `value / max` (or `1.0` when the baseline is zero) that the
percentage and progress cells are rendered from. -/

/-- The stable partition of line 506-509:
```
timers_sort, timers_none = [], []
for timer in timers:
    (timers_sort if timer.stats[sort_by] is not None else
     timers_none).append(timer)
```
-/
def partitionDefined (sortBy : String) (timers : List PyTimer) :
    List PyTimer × List PyTimer :=
  timers.foldl
    (fun p t =>
      if (statOf t sortBy).isSome then (p.1 ++ [t], p.2) else (p.1, p.2 ++ [t]))
    ([], [])

/-- The sort key comparison of line 510-511: Python's `list.sort` is stable
and sorts ascending by `item.stats[sort_by]`, descending when `reverse`
(equal keys keep their original order either way).  A stable sort for a total
preorder has a unique result, so Python's timsort is modelled by stable
insertion sort. -/
def sortKeyLe (sortBy : String) (reverse : Bool) (a b : PyTimer) : Prop :=
  if reverse then (statOf b sortBy).getD 0 ≤ (statOf a sortBy).getD 0
  else (statOf a sortBy).getD 0 ≤ (statOf b sortBy).getD 0

instance (sortBy : String) (reverse : Bool) :
    DecidableRel (sortKeyLe sortBy reverse) := by
  intro a b
  unfold sortKeyLe
  split <;> infer_instance

/-- The displayed order of the records (lines 501-512): when a sort key is
given, sort the records with a defined value for it (stable, ascending unless
`reverse`) and append the records whose value is unavailable, in original
order; with `sort_by = None` keep the incoming order. -/
def sortedTimers (sortBy : Option String) (reverse : Bool)
    (timers : List PyTimer) : List PyTimer :=
  match sortBy with
  | none => timers
  | some sb =>
    let p := partitionDefined sb timers
    List.insertionSort (sortKeyLe sb reverse) p.1 ++ p.2

/-- The percentage baseline (lines 519-525): starting from `0.0`, take every
displayed record's value for the stat when it is defined and larger than the
current maximum. -/
def maxValueFor (timers : List PyTimer) (stat : String) : ℚ :=
  timers.foldl
    (fun m t =>
      match statOf t stat with
      | some v => if m < v then v else m
      | none => m)
    0

/-- The ratio the percentage/progress cells are rendered from
(`_Timer.get_line`, lines 143-144): `value / max_value[stat] if
max_value[stat] else 1.0`. -/
def percentOf (value maxv : ℚ) : ℚ :=
  if maxv ≠ 0 then value / maxv else 1

/-- One rendered body row at the numeric level: the timer's id, the length of
its duration sequence (`Rpt`), and per displayed stat its value (`none` is
shown as the unavailable marker) together with the percent ratio when the
stat is percentage-annotated. -/
structure Row where
  id : ℕ
  rpt : ℕ
  cells : List (String × Option ℚ × Option ℚ)
deriving DecidableEq, Repr

/-- `_Timer.get_line` (lines 106-152) at the numeric level. -/
def getLine (t : PyTimer) (stats : List String) (percentage : List String)
    (maxValue : String → ℚ) : Row :=
  { id := t.id
    rpt := t.time.length
    cells := stats.map (fun st =>
      (st, statOf t st,
        if percentage.contains st then
          match statOf t st with
          | some v => some (percentOf v (maxValue st))
          | none => none
        else none)) }

/-- `Compare._print_results` (lines 495-536) at the numeric level: order the
selected records, compute each percentage-annotated stat's baseline over the
displayed records, and produce one row per record. -/
def printResultsM (timers : List PyTimer) (sortBy : Option String)
    (reverse : Bool) (stats : List String) (percentage : List String) :
    List Row :=
  let ordered := sortedTimers sortBy reverse timers
  ordered.map (fun t => getLine t stats percentage (maxValueFor ordered))

/-- Validated arguments of `print_results` (the result of
`_print_results_args`).  The `timers` list holds the selected timer records
by id; stats and percentage are kept as name lists (`percentage` is a Python
set, but it is only ever used for membership, so a duplicate-free list is an
equivalent model). -/
structure PrintArgs where
  timerIds : List ℕ
  sortBy : Option String
  reverse : Bool
  stats : List String
  percentage : List String
  precision : ℤ
deriving DecidableEq, Repr

/-- `_check_stat` (lines 238-251) needs the name value; a non-`str` argument
is a `TypeError`. -/
inductive PyStrArg where
  | pstr (s : String)
  | notAStr
deriving DecidableEq, Repr

/-- The Python 3 reserved keywords (`keyword.iskeyword`). -/
def pyKeywords : List String :=
  ["False", "None", "True", "and", "as", "assert", "async", "await",
   "break", "class", "continue", "def", "del", "elif", "else", "except",
   "finally", "for", "global", "if", "import", "in", "is", "lambda",
   "nonlocal", "not", "or", "pass", "raise", "return", "try", "while",
   "with", "yield"]

/-- `str.isidentifier`, restricted to ASCII names (the source defers to the
Python built-in; the Unicode identifier classes beyond ASCII are out of
scope): a nonempty string whose first character is a letter or underscore and
whose remaining characters are letters, digits or underscores. -/
def pyIsIdentifier (s : String) : Bool :=
  match s.data with
  | [] => false
  | c :: cs => (c.isAlpha || c = '_') && cs.all (fun d => d.isAlphanum || d = '_')

/-- Python `stat.startswith('_')`: whether the first character is an
underscore. -/
def pyStartsUnderscore (s : String) : Bool :=
  match s.data with
  | [] => false
  | c :: _ => c = '_'

/-- `Compare._check_stat` (lines 238-251): type check, identifier check,
keyword check, leading-underscore check, then case-normalization to
lowercase. -/
def check_stat (stat : PyStrArg) : Except PyExc String :=
  match stat with
  | .notAStr => .error .typeError
  | .pstr s =>
    if ¬ pyIsIdentifier s then .error .valueError
    else if pyKeywords.contains s then .error .valueError
    else if pyStartsUnderscore s then .error .valueError
    else .ok s.toLower

/-- `Compare._check_stat_select` (lines 265-272): `_check_stat`, then
membership in the registered statistics. -/
def check_stat_select (s : CompareState) (stat : PyStrArg) :
    Except PyExc String :=
  match check_stat stat with
  | .error e => .error e
  | .ok name =>
    if s.statsReg.any (fun p => p.1 = name) then .ok name
    else .error .valueError

/-- `Compare.add_stat` (lines 219-236): validate the name, store the function
under the lowercased name (overwriting in place), and recompute that stat for
every timer (`_Timer.add_stat`, line 80-82, which also invalidates the
timer's cached result).  The model's `func` is a function value, hence
callable; the `callable(func)` TypeError branch is unreachable here. -/
def Compare.add_statM (s : CompareState) (stat : PyStrArg) (func : StatFn) :
    Except PyExc CompareState :=
  match check_stat stat with
  | .error e => .error e
  | .ok name =>
    .ok { s with
      statsReg := dictSet s.statsReg name func
      timers := s.timers.map (fun t =>
        { t with
          stats := dictSet t.stats name (stat_call func t.time)
          cachedResult := false }) }

/-- `Compare._print_results_args` (lines 448-493).  The very first statement
raises `ValueError` when both `include` and `exclude` are given.  Selection:
`include` is turned into a set and looked up (a missing id is a `KeyError`);
`exclude` keeps every registered timer whose id is not excluded.  `sort_by`,
every member of `stats` and of `percentage` go through
`_check_stat_select`; `percentage` defaults to the sort key and is
intersected with `stats`; `precision` must be an `int` and is clamped to
1..8.  (The convenience string-splitting of `stats`/`percentage` arguments is
a front-end conversion and is not modelled; arguments arrive as lists.) -/
def printResultsArgsM (s : CompareState)
    (include? exclude? : Option (List ℕ)) (sortBy : Option PyStrArg)
    (reverse : Bool) (statsA : Option (List PyStrArg))
    (percA : Option (List PyStrArg)) (precA : PyArg) :
    Except PyExc PrintArgs :=
  if include?.isSome ∧ exclude?.isSome then .error .valueError
  else
    match
      ((match include? with
       | some inc =>
         if inc.all (fun i => s.timers.any (fun t => t.id = i)) then
           .ok ((s.timers.filter (fun t => inc.contains t.id)).map (fun t => t.id))
         else .error .keyError
       | none =>
         match exclude? with
         | some exc =>
           .ok ((s.timers.filter (fun t => ¬ exc.contains t.id)).map (fun t => t.id))
         | none => .ok (s.timers.map (fun t => t.id))) :
        Except PyExc (List ℕ)) with
    | .error e => .error e
    | .ok ids =>
      match
        ((match sortBy with
         | none => .ok none
         | some sb =>
           match check_stat_select s sb with
           | .error e => .error e
           | .ok name => .ok (some name)) : Except PyExc (Option String)) with
      | .error e => .error e
      | .ok sortName =>
        match
          ((match statsA with
           | none => .ok (s.statsReg.map (fun p => p.1))
           | some l => l.mapM (check_stat_select s)) :
            Except PyExc (List String)) with
        | .error e => .error e
        | .ok statNames =>
          match
            ((match percA with
             | none =>
               match sortName with
               | none => .ok []
               | some nm => .ok [nm]
             | some l => l.mapM (check_stat_select s)) :
              Except PyExc (List String)) with
          | .error e => .error e
          | .ok percNames0 =>
            let percNames := percNames0.filter (fun nm => statNames.contains nm)
            match pyIntArg precA with
            | none => .error .typeError
            | some p0 =>
              let p := if p0 < 1 then 1 else if 8 < p0 then 8 else p0
              .ok { timerIds := ids, sortBy := sortName, reverse := reverse,
                    stats := statNames, percentage := percNames, precision := p }

/-- `Compare.print_results` (lines 426-446): validate the arguments, then
render.  The rendering step reads the current timer records of the selected
ids.  No timing happens anywhere on this path (the whole pipeline takes no
timing oracle). -/
def Compare.print_resultsM (s : CompareState)
    (include? exclude? : Option (List ℕ)) (sortBy : Option PyStrArg)
    (reverse : Bool) (statsA : Option (List PyStrArg))
    (percA : Option (List PyStrArg)) (precA : PyArg) :
    Except PyExc (List Row) :=
  match printResultsArgsM s include? exclude? sortBy reverse statsA percA precA with
  | .error e => .error e
  | .ok pa =>
    .ok (printResultsM (s.timers.filter (fun t => pa.timerIds.contains t.id))
      pa.sortBy pa.reverse pa.stats pa.percentage)

/-! ## The convenience entry point `compare` (lines 539-588)

`compare` builds a `Compare`, registers the timers and extra stats, validates
the `print_results` arguments *before* running, sets `_catch_interrupt`,
runs, prints, and finally re-raises a captured interrupt:
```
cmp._catch_interrupt = None
cmp.run(repeat, number, time, show_progress)
interrupt = cmp._catch_interrupt
cmp._print_results(*print_results_args)
if interrupt is not None:
    raise interrupt
```
The registration prologue is caller-specific; the model starts from the
prepared state `s` (after `add_timer`/`add_stat`). -/

/-- Result of the convenience entry point: the table was printed and the call
returned normally; the table was printed and *then* the captured
`KeyboardInterrupt` was re-raised; or an exception escaped before printing. -/
inductive CompareCallOutcome where
  | printed (tbl : List Row)
  | printedThenInterrupt (tbl : List Row)
  | errored (e : PyExc)
  | fuelOut

/-- Embedding of the run-print-reraise tail of `compare` (lines 575-588). -/
def compareM (s : CompareState) (repeatA numberA timeA : PyArg)
    (sortBy : Option PyStrArg) (reverse : Bool)
    (statsA percA : Option (List PyStrArg)) (precA : PyArg)
    (oracle : ℕ → TimeitEv) (fuel : ℕ) : CompareCallOutcome :=
  match printResultsArgsM s none none sortBy reverse statsA percA precA with
  | .error e => .errored e
  | .ok pa =>
    match Compare.runM s true repeatA numberA timeA oracle fuel with
    | .fuelOut => .fuelOut
    | .raised e _ => .errored e
    | .ok s' =>
      .printed (printResultsM (s'.timers.filter (fun t => pa.timerIds.contains t.id))
        pa.sortBy pa.reverse pa.stats pa.percentage)
    | .caught s' =>
      .printedThenInterrupt
        (printResultsM (s'.timers.filter (fun t => pa.timerIds.contains t.id))
          pa.sortBy pa.reverse pa.stats pa.percentage)

/-! ## Theorems -/

/-- After finalization every timer's stats dict is the one recomputed from its
(new) duration sequence. -/
lemma finalizeRun_stats (s : CompareState) (slots : List Slot) (number : ℤ) :
    ∀ tm ∈ (finalizeRun s slots number).timers,
      tm.stats = recomputeStats s.statsReg tm.time := by
  intro tm htm
  simp only [finalizeRun, List.mem_map] at htm
  obtain ⟨p, _, rfl⟩ := htm
  rfl

/-- **C10.** `Compare.run` is atomic on failure: all new measurements live in
the temporary `new` structure and are copied onto the timers only after the
whole run finishes, so whenever `run` exits with a propagated exception
(a `TypeError` from validation, a statement error, or an interrupt that was
not captured) the `Compare` state — every timer's durations, total elapsed
time, stats dict and cached result, and the stored `_number` — is exactly the
state before the call. -/
theorem run_failure_atomic (s : CompareState) (catchInt : Bool)
    (repeatA numberA timeA : PyArg) (oracle : ℕ → TimeitEv) (fuel : ℕ)
    (e : PyExc) (s' : CompareState)
    (h : Compare.runM s catchInt repeatA numberA timeA oracle fuel
      = .raised e s') :
    s' = s := by
  unfold Compare.runM at h
  cases hrep : pyIntArg repeatA with
  | none => simp only [hrep] at h; cases h; rfl
  | some rep0 =>
    simp only [hrep] at h
    cases hnum : pyIntArg numberA with
    | none => simp only [hnum] at h; cases h; rfl
    | some num0 =>
      simp only [hnum] at h
      cases ht : pyRealArg timeA with
      | none => simp only [ht] at h; cases h; rfl
      | some t0 =>
        simp only [ht] at h
        cases hc : runCore s (if rep0 < 1 then 1 else rep0) num0
            (if t0 < 0 then 0 else t0) oracle fuel <;>
          simp only [hc] at h
        all_goals first
          | (cases h <;> rfl)
          | (split at h <;> cases h <;> rfl)

/-- Witness for C10: a statement error on the very first measuring call
propagates and the state is unchanged. -/
theorem run_failure_atomic_witness :
    (⟨[⟨0, [], 0, [], false⟩], [], 0⟩ : CompareState)
      = ⟨[⟨0, [], 0, [], false⟩], [], 0⟩ :=
  run_failure_atomic ⟨[⟨0, [], 0, [], false⟩], [], 0⟩ false
    (.vint 1) (.vint 1) (.vfloat 1) (fun _ => .err) 3 .other
    ⟨[⟨0, [], 0, [], false⟩], [], 0⟩ (by rfl)

/-- **C7.** Supplying both an inclusion and an exclusion id set to the
reporting entry point raises `ValueError` immediately: it is the very first
check of `_print_results_args`, so no table is rendered (the `.error` result
carries no rows) and no timing is involved (the whole reporting pipeline
takes no timing oracle). -/
theorem include_exclude_conflict (s : CompareState) (inc exc : List ℕ)
    (sortBy : Option PyStrArg) (reverse : Bool)
    (statsA percA : Option (List PyStrArg)) (precA : PyArg) :
    Compare.print_resultsM s (some inc) (some exc) sortBy reverse statsA
      percA precA = .error .valueError := by
  unfold Compare.print_resultsM printResultsArgsM
  simp

/-- Overwriting an existing key with `d[k] = v` keeps the key sequence (and
hence the display order) unchanged. -/
lemma dictSet_keys_of_mem {α : Type} (l : List (String × α)) (k : String)
    (v : α) (hmem : l.any (fun p => p.1 = k) = true) :
    (dictSet l k v).map Prod.fst = l.map Prod.fst := by
  unfold dictSet
  rw [if_pos hmem, List.map_map]
  refine List.map_congr_left ?_
  intro p _
  by_cases hp : p.1 = k
  · simp [hp]
  · simp [hp]

/-- **C8.** Registering a statistic validates its name: a non-string name is
a `TypeError`; a string that is not a valid identifier, or is a reserved
keyword, or begins with an underscore, is a `ValueError`; an accepted name is
stored lowercased, and overwriting an existing name keeps the registry's key
order (display order).  All the validation happens before the registry or any
timer is touched. -/
theorem add_stat_validation (s : CompareState) (func : StatFn) :
    (Compare.add_statM s .notAStr func = .error .typeError) ∧
    (∀ nm : String, ¬ pyIsIdentifier nm →
      Compare.add_statM s (.pstr nm) func = .error .valueError) ∧
    (∀ nm : String, pyIsIdentifier nm → pyKeywords.contains nm →
      Compare.add_statM s (.pstr nm) func = .error .valueError) ∧
    (∀ nm : String, pyIsIdentifier nm → ¬ pyKeywords.contains nm →
      pyStartsUnderscore nm →
      Compare.add_statM s (.pstr nm) func = .error .valueError) ∧
    (∀ nm : String, pyIsIdentifier nm → ¬ pyKeywords.contains nm →
      ¬ pyStartsUnderscore nm →
      ∃ s', Compare.add_statM s (.pstr nm) func = .ok s' ∧
        s'.statsReg = dictSet s.statsReg nm.toLower func ∧
        (s.statsReg.any (fun p => p.1 = nm.toLower) = true →
          s'.statsReg.map Prod.fst = s.statsReg.map Prod.fst) ∧
        s'.timers = s.timers.map (fun t =>
          { t with
            stats := dictSet t.stats nm.toLower (stat_call func t.time)
            cachedResult := false })) := by
  refine ⟨rfl, ?_, ?_, ?_, ?_⟩
  · intro nm hid
    simp [Compare.add_statM, check_stat, hid]
  · intro nm hid hkw
    simp only [Compare.add_statM, check_stat]
    rw [if_neg (by simpa using hid), if_pos (by simpa using hkw)]
  · intro nm hid hkw hu
    simp only [Compare.add_statM, check_stat]
    rw [if_neg (by simpa using hid), if_neg (by simpa using hkw), if_pos hu]
  · intro nm hid hkw hu
    refine ⟨{ s with
        statsReg := dictSet s.statsReg nm.toLower func
        timers := s.timers.map (fun t =>
          { t with
            stats := dictSet t.stats nm.toLower (stat_call func t.time)
            cachedResult := false }) }, ?_, rfl, ?_, rfl⟩
    · simp only [Compare.add_statM, check_stat]
      rw [if_neg (by simpa using hid), if_neg (by simpa using hkw), if_neg (by simpa using hu)]
    · intro hmem
      exact dictSet_keys_of_mem _ _ _ hmem

/-- Witness for C8: the scenarios from the spec — `_private` (leading
underscore), `class` (keyword), `9x` (not an identifier), a non-string name,
and the accepted name `Mean` stored as `mean` overwriting the existing entry
in place. -/
theorem add_stat_validation_witness :
    (Compare.add_statM ⟨[], [("mean", fun _ => .raise)], 0⟩ .notAStr
        (fun _ => .raise) = .error .typeError) ∧
    (Compare.add_statM ⟨[], [("mean", fun _ => .raise)], 0⟩ (.pstr "9x")
        (fun _ => .raise) = .error .valueError) ∧
    (Compare.add_statM ⟨[], [("mean", fun _ => .raise)], 0⟩ (.pstr "class")
        (fun _ => .raise) = .error .valueError) ∧
    (Compare.add_statM ⟨[], [("mean", fun _ => .raise)], 0⟩ (.pstr "_private")
        (fun _ => .raise) = .error .valueError) ∧
    (∃ s', Compare.add_statM ⟨[], [("mean", fun _ => .raise)], 0⟩
        (.pstr "Mean") (fun _ => .raise) = .ok s' ∧
      s'.statsReg = dictSet [("mean", fun _ => .raise)] "Mean".toLower
          (fun _ => .raise) ∧
      ([("mean", (fun _ => .raise : StatFn))].any
          (fun p => p.1 = "Mean".toLower) = true →
        s'.statsReg.map Prod.fst
          = [("mean", (fun _ => .raise : StatFn))].map Prod.fst) ∧
      s'.timers = ([] : List PyTimer).map (fun t =>
        { t with
          stats := dictSet t.stats "Mean".toLower
            (stat_call (fun _ => .raise) t.time)
          cachedResult := false })) :=
  ⟨(add_stat_validation ⟨[], [("mean", fun _ => .raise)], 0⟩ (fun _ => .raise)).1,
   (add_stat_validation _ _).2.1 "9x" (by decide),
   (add_stat_validation _ _).2.2.1 "class" (by decide) (by decide),
   (add_stat_validation _ _).2.2.2.1 "_private" (by decide) (by decide) (by decide),
   (add_stat_validation _ _).2.2.2.2 "Mean" (by decide) (by decide) (by decide)⟩

/-- A filter and its complement-filter together are a permutation of the
list. -/
lemma filter_append_not_filter_perm {α : Type} (p : α → Bool) :
    ∀ l : List α, (l.filter p ++ l.filter (fun x => !p x)).Perm l := by
  intro l
  induction l with
  | nil => simp
  | cons a l ih =>
    by_cases ha : p a
    · simpa [List.filter_cons, ha] using ih.cons a
    · simp only [List.filter_cons, ha, Bool.not_false, if_neg, cond_false]
      refine List.Perm.trans ?_ (ih.cons a)
      have hmid := (@List.perm_middle _ a (l.filter p)
        (l.filter (fun x => !p x))).symm
      simpa [ha] using hmid

/-- The one-pass append partition of `_print_results` is the pair of
order-preserving filters. -/
lemma partitionDefined_eq_filters (sb : String) (timers : List PyTimer) :
    partitionDefined sb timers
      = (timers.filter (fun t => (statOf t sb).isSome),
         timers.filter (fun t => !(statOf t sb).isSome)) := by
  suffices h : ∀ a b, timers.foldl
      (fun p t =>
        if (statOf t sb).isSome then (p.1 ++ [t], p.2) else (p.1, p.2 ++ [t]))
      (a, b)
      = (a ++ timers.filter (fun t => (statOf t sb).isSome),
         b ++ timers.filter (fun t => !(statOf t sb).isSome)) by
    simpa [partitionDefined] using h [] []
  induction timers with
  | nil => intro a b; simp
  | cons t rest ih =>
    intro a b
    by_cases ht : (statOf t sb).isSome
    · have hne : ¬ statOf t sb = none := by
        simpa [Option.isSome_iff_ne_none] using ht
      simp [List.foldl_cons, ht, ih, List.filter_cons, hne]
    · have he : statOf t sb = none := by
        simpa [Option.not_isSome_iff_eq_none] using ht
      simp [List.foldl_cons, ht, ih, List.filter_cons, he]

instance sortKeyLe_total (sb : String) (rev : Bool) :
    IsTotal PyTimer (sortKeyLe sb rev) :=
  ⟨by
    intro a b
    unfold sortKeyLe
    split <;> exact le_total _ _⟩

instance sortKeyLe_trans (sb : String) (rev : Bool) :
    IsTrans PyTimer (sortKeyLe sb rev) :=
  ⟨by
    intro a b c
    unfold sortKeyLe
    split
    · exact fun h1 h2 => le_trans h2 h1
    · exact fun h1 h2 => le_trans h1 h2⟩

/-- **C6.** When the displayed records are sorted by a stat, the output is a
stable ascending (descending when `reverse`) sort of the records with a
defined value for that stat, followed by the records whose value is
unavailable, the latter in their original relative order: every unavailable
record comes after every defined one, the unavailable group is the original
sequence filtered (hence in registration-relative order), and the defined
prefix is ordered by the stat's value. -/
theorem sorting_unavailable_last (sb : String) (rev : Bool)
    (timers : List PyTimer) :
    sortedTimers (some sb) rev timers
        = List.insertionSort (sortKeyLe sb rev)
            (timers.filter (fun t => (statOf t sb).isSome))
          ++ timers.filter (fun t => !(statOf t sb).isSome) ∧
    (List.insertionSort (sortKeyLe sb rev)
        (timers.filter (fun t => (statOf t sb).isSome))).Sorted
      (fun a b =>
        if rev then (statOf b sb).getD 0 ≤ (statOf a sb).getD 0
        else (statOf a sb).getD 0 ≤ (statOf b sb).getD 0) ∧
    (List.insertionSort (sortKeyLe sb rev)
        (timers.filter (fun t => (statOf t sb).isSome))).Perm
      (timers.filter (fun t => (statOf t sb).isSome)) ∧
    (∀ t ∈ List.insertionSort (sortKeyLe sb rev)
        (timers.filter (fun t => (statOf t sb).isSome)),
      (statOf t sb).isSome) ∧
    (sortedTimers (some sb) rev timers).Perm timers := by
  have hpart := partitionDefined_eq_filters sb timers
  have heq : sortedTimers (some sb) rev timers
      = List.insertionSort (sortKeyLe sb rev)
          (timers.filter (fun t => (statOf t sb).isSome))
        ++ timers.filter (fun t => !(statOf t sb).isSome) := by
    simp [sortedTimers, hpart]
  have hsorted : (List.insertionSort (sortKeyLe sb rev)
      (timers.filter (fun t => (statOf t sb).isSome))).Sorted
        (sortKeyLe sb rev) :=
    List.sorted_insertionSort (sortKeyLe sb rev) _
  have hperm : (List.insertionSort (sortKeyLe sb rev)
      (timers.filter (fun t => (statOf t sb).isSome))).Perm
        (timers.filter (fun t => (statOf t sb).isSome)) :=
    List.perm_insertionSort (sortKeyLe sb rev) _
  refine ⟨heq, ?_, hperm, ?_, ?_⟩
  · refine hsorted.imp ?_
    intro a b hab
    unfold sortKeyLe at hab
    split at hab <;> simp_all
  · intro t ht
    have hmem := hperm.mem_iff.mp ht
    simpa using List.of_mem_filter hmem
  · rw [heq]
    exact (hperm.append_right _).trans
      (filter_append_not_filter_perm (fun t => (statOf t sb).isSome) timers)

/-- The percentage-baseline fold never decreases below its start value. -/
lemma maxValueFoldl_ge_start (stat : String) :
    ∀ (l : List PyTimer) (m : ℚ),
      m ≤ l.foldl
        (fun m t =>
          match statOf t stat with
          | some v => if m < v then v else m
          | none => m) m := by
  intro l
  induction l with
  | nil => intro m; simp
  | cons t rest ih =>
    intro m
    refine le_trans ?_ (ih _)
    cases hv : statOf t stat with
    | none => simp [hv]
    | some v =>
      simp only [hv]
      split
      · exact le_of_lt (by assumption)
      · exact le_rfl

/-- Every defined stat value of a displayed record is bounded by the
percentage-baseline fold, whatever the start value. -/
lemma maxValueFoldl_ge_mem (stat : String) :
    ∀ (l : List PyTimer) (m : ℚ) (t : PyTimer) (v : ℚ),
      t ∈ l → statOf t stat = some v →
      v ≤ l.foldl
        (fun m t =>
          match statOf t stat with
          | some v => if m < v then v else m
          | none => m) m := by
  intro l
  induction l with
  | nil => intro m t v ht; exact absurd ht (List.not_mem_nil t)
  | cons u rest ih =>
    intro m t v ht hv
    rcases List.mem_cons.mp ht with rfl | hmem
    · refine le_trans ?_ (maxValueFoldl_ge_start stat rest _)
      simp only [List.foldl_cons, hv]
      split
      · exact le_rfl
      · exact le_of_not_lt (by assumption)
    · simpa using ih _ t v hmem hv

/-- The percentage-baseline fold is either its start value or one of the
defined stat values of the list. -/
lemma maxValueFoldl_mem_or_start (stat : String) :
    ∀ (l : List PyTimer) (m : ℚ),
      l.foldl
        (fun m t =>
          match statOf t stat with
          | some v => if m < v then v else m
          | none => m) m = m ∨
      ∃ t ∈ l, statOf t stat
        = some (l.foldl
            (fun m t =>
              match statOf t stat with
              | some v => if m < v then v else m
              | none => m) m) := by
  intro l
  induction l with
  | nil => intro m; exact Or.inl rfl
  | cons u rest ih =>
    intro m
    rw [List.foldl_cons]
    cases hv : statOf u stat with
    | none =>
      simp only [hv]
      rcases ih m with h | ⟨t, htl, hts⟩
      · exact Or.inl h
      · exact Or.inr ⟨t, List.mem_cons_of_mem u htl, hts⟩
    | some v =>
      simp only [hv]
      by_cases hlt : m < v
      · rw [if_pos hlt]
        rcases ih v with h | ⟨t, htl, hts⟩
        · exact Or.inr ⟨u, List.mem_cons_self u rest, by rw [hv, h]⟩
        · exact Or.inr ⟨t, List.mem_cons_of_mem u htl, hts⟩
      · rw [if_neg hlt]
        rcases ih m with h | ⟨t, htl, hts⟩
        · exact Or.inl h
        · exact Or.inr ⟨t, List.mem_cons_of_mem u htl, hts⟩

/-- A record carrying only a negative `mean` value: the statistic function
`lambda t: -1` is registered, so its computed value is `-1`. -/
def negStatTimer : PyTimer :=
  { id := 0, time := [], total_time := 0,
    stats := [("mean", some (-1))], cachedResult := false }

/-- The baseline the claim describes, in the claim's own words: "the maximum
of that stat over the displayed records with unavailable values excluded
(0 when no record has a defined value)".  This definition follows the spec
sentence and exists only to be compared with the code's `maxValueFor`. -/
def claimBaselineMax (timers : List PyTimer) (stat : String) : ℚ :=
  match timers.filterMap (fun t => statOf t stat) with
  | [] => 0
  | v :: vs => vs.foldl max v

/-- **C5, counterexample.**  A displayed record whose only defined value for
the percentage stat is `-1`: the claim's baseline (the maximum over displayed
records) is `-1`, but the code's fold starts at `0.0` and `-1 > 0.0` is
false, so the code's baseline is `0` — the claim's description of the
baseline is false for negative stat values. -/
theorem percentage_baseline_cex :
    statOf negStatTimer "mean" = some (-1) ∧
    claimBaselineMax [negStatTimer] "mean" = -1 ∧
    maxValueFor [negStatTimer] "mean" = 0 ∧
    maxValueFor [negStatTimer] "mean" ≠ claimBaselineMax [negStatTimer] "mean" := by
  refine ⟨rfl, rfl, rfl, by decide⟩

/-- **C5, amended.**  The comparison baseline for a percentage-annotated stat
is the maximum of `0` and the defined values of that stat over the displayed
records (so `0` when no record has a defined value, and also when all defined
values are negative); each defined value is rendered as `value / max`, with
the ratio taken as `1.0` whenever the baseline is `0`; consequently the
record holding the maximum defined value always reports a ratio of exactly
`1` (100%). -/
theorem percentage_baseline_spec (timers : List PyTimer) (stat : String) :
    (0 ≤ maxValueFor timers stat) ∧
    (∀ t ∈ timers, ∀ v : ℚ, statOf t stat = some v →
      v ≤ maxValueFor timers stat) ∧
    (maxValueFor timers stat = 0 ∨
      ∃ t ∈ timers, statOf t stat = some (maxValueFor timers stat)) ∧
    (∀ t ∈ timers, ∀ v : ℚ, statOf t stat = some v →
      (∀ u ∈ timers, ∀ w : ℚ, statOf u stat = some w → w ≤ v) →
      percentOf v (maxValueFor timers stat) = 1) := by
  refine ⟨maxValueFoldl_ge_start stat timers 0,
    fun t ht v hv => maxValueFoldl_ge_mem stat timers 0 t v ht hv,
    maxValueFoldl_mem_or_start stat timers 0, ?_⟩
  intro t ht v hv hmax
  by_cases hz : maxValueFor timers stat = 0
  · simp [percentOf, hz]
  · have hvm : v ≤ maxValueFor timers stat :=
      maxValueFoldl_ge_mem stat timers 0 t v ht hv
    have hmv : maxValueFor timers stat ≤ v := by
      rcases maxValueFoldl_mem_or_start stat timers 0 with h | ⟨u, hu, hus⟩
      · exact absurd h hz
      · exact hmax u hu _ hus
    have heq : v = maxValueFor timers stat := le_antisymm hvm hmv
    have hvne : v ≠ 0 := by rw [heq]; exact hz
    simp [percentOf, hz, ← heq, div_self hvne]

/-- A record with `mean` value 2, for the C5 witness. -/
def meanTwoTimer : PyTimer :=
  { id := 0, time := [], total_time := 0,
    stats := [("mean", some 2)], cachedResult := false }

/-- A record with `mean` value 5, for the C5 witness. -/
def meanFiveTimer : PyTimer :=
  { id := 1, time := [], total_time := 0,
    stats := [("mean", some 5)], cachedResult := false }

/-- Witness for C5 (amended): two records with `mean` values 2 and 5 — the
record holding the maximum reports exactly 100%. -/
theorem percentage_baseline_spec_witness :
    percentOf 5 (maxValueFor [meanTwoTimer, meanFiveTimer] "mean") = 1 := by
  refine (percentage_baseline_spec [meanTwoTimer, meanFiveTimer] "mean").2.2.2
    meanFiveTimer (by simp) 5 rfl ?_
  intro u hu w hw
  rcases List.mem_cons.mp hu with rfl | hu
  · have hw2 : w = 2 := by
      have : statOf meanTwoTimer "mean" = some 2 := rfl
      rw [this] at hw
      exact (Option.some.injEq _ _).mp hw.symm
    norm_num [hw2]
  · rcases List.mem_cons.mp hu with rfl | hu
    · have hw5 : w = 5 := by
        have : statOf meanFiveTimer "mean" = some 5 := rfl
        rw [this] at hw
        exact (Option.some.injEq _ _).mp hw.symm
      norm_num [hw5]
    · simp at hu

/-- Composition of two elementwise relations between lists. -/
lemma forall2_comp {α : Type} {P Q R : α → α → Prop}
    (h : ∀ a b c, P a b → Q b c → R a c) :
    ∀ {l₁ l₂ l₃ : List α}, List.Forall₂ P l₁ l₂ → List.Forall₂ Q l₂ l₃ →
      List.Forall₂ R l₁ l₃ := by
  intro l₁ l₂ l₃ h12
  induction h12 generalizing l₃ with
  | nil =>
    intro h23
    cases h23
    exact List.Forall₂.nil
  | cons hab h12 ih =>
    intro h23
    cases h23 with
    | cons hbc h23 => exact List.Forall₂.cons (h _ _ _ hab hbc) (ih h23)

/-- From an elementwise relation, every member of the right list is related
to some member of the left list. -/
lemma forall2_mem_right {α : Type} {P : α → α → Prop} :
    ∀ {l₁ l₂ : List α}, List.Forall₂ P l₁ l₂ → ∀ b ∈ l₂, ∃ a ∈ l₁, P a b := by
  intro l₁ l₂ h
  induction h with
  | nil => intro b hb; exact absurd hb (List.not_mem_nil b)
  | cons hab h ih =>
    intro b hb
    rcases List.mem_cons.mp hb with rfl | hb
    · exact ⟨_, List.mem_cons_self _ _, hab⟩
    · obtain ⟨a, ha, hp⟩ := ih b hb
      exact ⟨a, List.mem_cons_of_mem _ ha, hp⟩

/-- One trial grows every slot's duration list by exactly one normalized
measurement and keeps the `total_time = number * sum(time)` invariant. -/
lemma trialLoop_ok_spec (oracle : ℕ → TimeitEv) (num : ℤ)
    (hnum : (num : ℚ) ≠ 0) :
    ∀ (slots : List Slot) (c : ℕ) (slots' : List Slot) (c' : ℕ),
      trialLoop oracle num slots c = (slots', .ok c') →
      List.Forall₂ (fun a b : Slot =>
        b.time.length = a.time.length + 1 ∧
        (a.total_time = (num : ℚ) * a.time.sum →
          b.total_time = (num : ℚ) * b.time.sum)) slots slots' := by
  intro slots
  induction slots with
  | nil =>
    intro c slots' c' h
    simp only [trialLoop] at h
    cases h
    exact List.Forall₂.nil
  | cons s rest ih =>
    intro c slots' c' h
    simp only [trialLoop] at h
    cases ho : oracle c with
    | ok d =>
      rw [ho] at h
      simp only at h
      cases hr : trialLoop oracle num rest (c + 1) with
      | mk rslots rres =>
        rw [hr] at h
        cases rres with
        | error e => simp at h
        | ok c0 =>
          simp only [Prod.mk.injEq] at h
          obtain ⟨h1, h2⟩ := h
          subst h1
          refine List.Forall₂.cons ?_ (ih _ _ _ hr)
          constructor
          · simp
          · intro hinv
            simp only [List.sum_append, List.sum_cons, List.sum_nil]
            rw [mul_add, hinv]
            have : (num : ℚ) * (d / (num : ℚ) + 0) = d := by
              field_simp
            rw [this]
    | interrupt =>
      rw [ho] at h
      simp at h
    | err =>
      rw [ho] at h
      simp at h

/-- The full measuring loop grows every slot's duration list by exactly
`reps` and keeps the same invariant. -/
lemma measureLoop_ok_spec (oracle : ℕ → TimeitEv) (num : ℤ)
    (hnum : (num : ℚ) ≠ 0) :
    ∀ (reps : ℕ) (slots : List Slot) (c : ℕ) (slots' : List Slot) (c' : ℕ),
      measureLoop oracle num reps slots c = (slots', .ok c') →
      List.Forall₂ (fun a b : Slot =>
        b.time.length = a.time.length + reps ∧
        (a.total_time = (num : ℚ) * a.time.sum →
          b.total_time = (num : ℚ) * b.time.sum)) slots slots' := by
  intro reps
  induction reps with
  | zero =>
    intro slots c slots' c' h
    simp only [measureLoop] at h
    cases h
    exact List.forall₂_same.mpr (fun a _ => ⟨rfl, fun hx => hx⟩)
  | succ r ih =>
    intro slots c slots' c' h
    simp only [measureLoop] at h
    cases ht : trialLoop oracle num slots c with
    | mk mid mres =>
      rw [ht] at h
      cases mres with
      | error e => simp at h
      | ok c0 =>
        simp only at h
        have h1 := trialLoop_ok_spec oracle num hnum slots c mid c0 ht
        have h2 := ih mid c0 slots' c' h
        refine forall2_comp ?_ h1 h2
        intro a b cc hab hbc
        exact ⟨by omega, fun hx => hbc.2 (hab.2 hx)⟩

/-- A successful estimation always yields an iteration count of at least 1
(the `max(..., 1)`). -/
lemma estimateLoop_done_pos (oracle : ℕ → TimeitEv) (k : ℕ) (timeB : ℚ)
    (rep : ℤ) :
    ∀ (fuel : ℕ) (n : ℤ) (c : ℕ) (number : ℤ) (c' : ℕ),
      estimateLoop oracle k timeB rep fuel n c = .done number c' →
      1 ≤ number := by
  intro fuel
  induction fuel with
  | zero =>
    intro n c number c' h
    simp [estimateLoop] at h
  | succ f ih =>
    intro n c number c' h
    simp only [estimateLoop] at h
    cases hp : passCalls oracle c k 0 with
    | error e => rw [hp] at h; simp at h
    | ok tc =>
      rw [hp] at h
      simp only at h
      by_cases hgt : (1/5 : ℚ) < tc.1
      · rw [if_pos hgt] at h
        cases h
        exact le_max_right _ 1
      · rw [if_neg hgt] at h
        exact ih _ _ _ _ h

/-- A run body that returned `emptyTimers` really had no registered timers
(the early return of line 304-305). -/
lemma runCore_emptyTimers (s : CompareState) (rep num0 : ℤ) (timeB : ℚ)
    (oracle : ℕ → TimeitEv) (fuel : ℕ)
    (hc : runCore s rep num0 timeB oracle fuel = .emptyTimers) :
    s.timers = [] := by
  unfold runCore at hc
  by_cases he : s.timers.isEmpty
  · exact List.isEmpty_iff.mp he
  · rw [if_neg he] at hc
    exfalso
    by_cases hn : num0 ≤ 0
    · rw [if_pos hn] at hc
      cases hest : estimateLoop oracle s.timers.length timeB rep fuel 1 0 with
      | fuelOut => simp [hest] at hc
      | exc e => cases e <;> simp_all
      | done num2 c2 =>
        simp only [hest] at hc
        cases hm : measureLoop oracle num2 rep.toNat
            (s.timers.map (fun _ => ⟨[], 0⟩)) c2 with
        | mk ms mr =>
          cases mr with
          | ok cx =>
            simp only [hm] at hc
            exact RunCore.noConfusion hc
          | error e => cases e <;> simp_all
    · rw [if_neg hn] at hc
      cases hm : measureLoop oracle num0 rep.toNat
          (s.timers.map (fun _ => ⟨[], 0⟩)) 0 with
      | mk ms mr =>
        cases mr with
        | ok cx =>
          simp only [hm] at hc
          exact RunCore.noConfusion hc
        | error e => cases e <;> simp_all

/-- A run body that completed measuring did so through the measuring loop on
fresh slots, at an iteration count of at least 1 (estimated, or the caller's
positive `number`). -/
lemma runCore_okc_spec (s : CompareState) (rep num0 : ℤ) (timeB : ℚ)
    (oracle : ℕ → TimeitEv) (fuel : ℕ) (slots : List Slot) (number : ℤ)
    (hc : runCore s rep num0 timeB oracle fuel = .okc slots number) :
    1 ≤ number ∧
    ∃ c0 c1, measureLoop oracle number rep.toNat
      (s.timers.map (fun _ => ⟨[], 0⟩)) c0 = (slots, .ok c1) := by
  unfold runCore at hc
  by_cases he : s.timers.isEmpty
  · rw [if_pos he] at hc; cases hc
  · rw [if_neg he] at hc
    by_cases hn : num0 ≤ 0
    · rw [if_pos hn] at hc
      cases hest : estimateLoop oracle s.timers.length timeB rep fuel 1 0 with
      | fuelOut => simp [hest] at hc
      | exc e => cases e <;> simp_all
      | done num2 c2 =>
        simp only [hest] at hc
        cases hm : measureLoop oracle num2 rep.toNat
            (s.timers.map (fun _ => ⟨[], 0⟩)) c2 with
        | mk ms mr =>
          cases mr with
          | ok cx =>
            simp only [hm] at hc
            cases hc
            exact ⟨estimateLoop_done_pos oracle _ _ rep fuel 1 0 _ _ hest,
              c2, cx, hm⟩
          | error e => cases e <;> simp_all
    · rw [if_neg hn] at hc
      cases hm : measureLoop oracle num0 rep.toNat
          (s.timers.map (fun _ => ⟨[], 0⟩)) 0 with
      | mk ms mr =>
        cases mr with
        | ok cx =>
          simp only [hm] at hc
          cases hc
          exact ⟨by omega, 0, cx, hm⟩
        | error e => cases e <;> simp_all

/-- Finalizing does not change the timers' ids (in particular their order). -/
lemma finalizeRun_ids (s : CompareState) (slots : List Slot) (number : ℤ)
    (hlen : s.timers.length ≤ slots.length) :
    (finalizeRun s slots number).timers.map (fun t => t.id)
      = s.timers.map (fun t => t.id) := by
  have hgen : ∀ (l1 : List PyTimer) (l2 : List Slot), l1.length ≤ l2.length →
      ((l1.zip l2).map (fun p =>
        ({ p.1 with
           time := p.2.time
           total_time := p.2.total_time
           stats := recomputeStats s.statsReg p.2.time } : PyTimer))).map
        (fun t => t.id) = l1.map (fun t => t.id) := by
    intro l1
    induction l1 with
    | nil => intro l2 _; simp
    | cons a l ih =>
      intro l2 h
      cases l2 with
      | nil => simp at h
      | cons b l2 =>
        simp only [List.zip_cons_cons, List.map_cons]
        rw [ih l2 (by simpa using h)]
  exact hgen s.timers slots hlen

/-- **C1.** For every set of registered timers and every run with
`repeat = r ≥ 1` that completes without an interrupt and without a statement
execution error, after `Compare.run` returns: the set and order of timers is
unchanged; every timer's recorded duration sequence has length exactly `r`;
every timer's stats dict has been recomputed from its final duration
sequence before control returns; and the single stored iteration count
`_number` is shared by all timers — each timer's unnormalized total is its
duration sum times that one shared count. -/
theorem run_success_postcondition (s : CompareState) (catchInt : Bool)
    (r n : ℤ) (timeA : PyArg) (oracle : ℕ → TimeitEv) (fuel : ℕ)
    (s' : CompareState) (hr : 1 ≤ r)
    (h : Compare.runM s catchInt (.vint r) (.vint n) timeA oracle fuel
      = .ok s') :
    s'.timers.map (fun t => t.id) = s.timers.map (fun t => t.id) ∧
    (∀ tm ∈ s'.timers, (tm.time.length : ℤ) = r) ∧
    (∀ tm ∈ s'.timers, tm.stats = recomputeStats s.statsReg tm.time) ∧
    (∀ tm ∈ s'.timers, tm.total_time = (s'.number : ℚ) * tm.time.sum) := by
  unfold Compare.runM at h
  simp only [pyIntArg] at h
  cases ht : pyRealArg timeA with
  | none => simp only [ht] at h; cases h
  | some t0 =>
    simp only [ht] at h
    have hrep : (if r < 1 then 1 else r) = r := by omega
    rw [hrep] at h
    cases hc : runCore s r n (if t0 < 0 then 0 else t0) oracle fuel with
    | emptyTimers =>
      simp only [hc] at h
      cases h
      have hempty := runCore_emptyTimers s r n _ oracle fuel hc
      refine ⟨rfl, ?_, ?_, ?_⟩ <;>
        (intro tm htm; rw [hempty] at htm; cases htm)
    | okc slots number =>
      simp only [hc] at h
      cases h
      obtain ⟨hnum, c0, c1, hmeas⟩ :=
        runCore_okc_spec s r n _ oracle fuel slots number hc
      have hnumq : ((number : ℤ) : ℚ) ≠ 0 := by
        exact_mod_cast (by omega : (number : ℤ) ≠ 0)
      have hf2 := measureLoop_ok_spec oracle number hnumq r.toNat
        (s.timers.map (fun _ => ⟨[], 0⟩)) c0 slots c1 hmeas
      have hslots : ∀ b ∈ slots,
          b.time.length = r.toNat
            ∧ b.total_time = (number : ℚ) * b.time.sum := by
        intro b hb
        obtain ⟨a, ha, hab⟩ := forall2_mem_right hf2 b hb
        obtain ⟨_, _, rfl⟩ := List.mem_map.mp ha
        refine ⟨by simpa using hab.1, hab.2 (by simp)⟩
      have hlen : s.timers.length ≤ slots.length := by
        have := hf2.length_eq
        simp at this
        omega
      refine ⟨finalizeRun_ids s slots number hlen, ?_, ?_, ?_⟩
      · intro tm htm
        simp only [finalizeRun, List.mem_map] at htm
        obtain ⟨p, hp, rfl⟩ := htm
        have hb : p.2 ∈ slots := (List.of_mem_zip hp).2
        have hlenp := (hslots p.2 hb).1
        simp only [hlenp]
        omega
      · exact finalizeRun_stats s slots number
      · intro tm htm
        simp only [finalizeRun, List.mem_map] at htm
        obtain ⟨p, hp, rfl⟩ := htm
        have hb : p.2 ∈ slots := (List.of_mem_zip hp).2
        exact (hslots p.2 hb).2
    | interruptedEst number0 =>
      simp only [hc] at h
      split at h <;> cases h
    | interruptedMeas slots number =>
      simp only [hc] at h
      split at h <;> cases h
    | errc e => simp only [hc] at h; cases h
    | fuelOut => simp only [hc] at h; cases h

/-- A fresh one-timer `Compare` state for the concrete runs below. -/
def oneTimerState : CompareState := ⟨[⟨0, [], 0, [], false⟩], [], 0⟩

/-- Witness for C1: one timer, `repeat = 2`, explicit `number = 1`, every
timed call returning 1 second — after the run the duration sequence is
`[1, 1]`, the stats dict is the (empty) registry recomputed, and the total
equals `number * sum`. -/
theorem run_success_postcondition_witness :
    (⟨[⟨0, [1, 1], 2, [], false⟩], [], 1⟩ : CompareState).timers.map
        (fun t => t.id)
      = oneTimerState.timers.map (fun t => t.id) ∧
    (∀ tm ∈ (⟨[⟨0, [1, 1], 2, [], false⟩], [], 1⟩ : CompareState).timers,
      (tm.time.length : ℤ) = 2) ∧
    (∀ tm ∈ (⟨[⟨0, [1, 1], 2, [], false⟩], [], 1⟩ : CompareState).timers,
      tm.stats = recomputeStats oneTimerState.statsReg tm.time) ∧
    (∀ tm ∈ (⟨[⟨0, [1, 1], 2, [], false⟩], [], 1⟩ : CompareState).timers,
      tm.total_time
        = ((⟨[⟨0, [1, 1], 2, [], false⟩], [], 1⟩ : CompareState).number : ℚ)
          * tm.time.sum) :=
  run_success_postcondition oneTimerState false 2 1 (.vfloat 1)
    (fun _ => .ok 1) 3 ⟨[⟨0, [1, 1], 2, [], false⟩], [], 1⟩
    (by decide)
    (by norm_num [Compare.runM, pyIntArg, pyRealArg, runCore, measureLoop,
      trialLoop, finalizeRun, recomputeStats, oneTimerState, List.isEmpty])

/-- A `KeyboardInterrupt` captured by `run` (under the convenience entry
point, `catchInt = true`) leaves the state finalized on the partial data;
the very same run without the `_catch_interrupt` attribute propagates the
interrupt with the state unchanged. -/
lemma runM_caught_spec (s : CompareState) (rA nA tA : PyArg)
    (oracle : ℕ → TimeitEv) (fuel : ℕ) (s' : CompareState)
    (h : Compare.runM s true rA nA tA oracle fuel = .caught s') :
    (∃ slots number, s' = finalizeRun s slots number) ∧
    Compare.runM s false rA nA tA oracle fuel
      = .raised .keyboardInterrupt s := by
  unfold Compare.runM at h ⊢
  cases hrep : pyIntArg rA with
  | none => simp only [hrep] at h; cases h
  | some rep0 =>
    simp only [hrep] at h ⊢
    cases hnum : pyIntArg nA with
    | none => simp only [hnum] at h; cases h
    | some num0 =>
      simp only [hnum] at h ⊢
      cases ht : pyRealArg tA with
      | none => simp only [ht] at h; cases h
      | some t0 =>
        simp only [ht] at h ⊢
        cases hc : runCore s (if rep0 < 1 then 1 else rep0) num0
            (if t0 < 0 then 0 else t0) oracle fuel with
        | emptyTimers => simp only [hc] at h; cases h
        | okc slots number => simp only [hc] at h; cases h
        | interruptedEst number0 =>
          simp only [hc, if_true] at h
          simp only [hc]
          cases h
          exact ⟨⟨_, _, rfl⟩, by simp⟩
        | interruptedMeas slots number =>
          simp only [hc, if_true] at h
          simp only [hc]
          cases h
          exact ⟨⟨_, _, rfl⟩, by simp⟩
        | errc e => simp only [hc] at h; cases h
        | fuelOut => simp only [hc] at h; cases h

/-- **C3.** If a `KeyboardInterrupt` occurs while the convenience entry
point `compare` is running the timers, the interrupt is captured
(`_catch_interrupt` is set), statistics are recomputed on the trials that
completed, the results table is printed from that partial data, and only
after printing is the same interrupt re-raised (the
`printedThenInterrupt` outcome: the rendered table together with the
re-raise).  Direct use of `Compare.run` — no `_catch_interrupt` attribute —
instead propagates the interrupt to the caller, with the state unchanged. -/
theorem interrupt_capture_spec (s : CompareState) (rA nA tA : PyArg)
    (sortBy : Option PyStrArg) (reverse : Bool)
    (statsA percA : Option (List PyStrArg)) (precA : PyArg)
    (oracle : ℕ → TimeitEv) (fuel : ℕ) (pa : PrintArgs) (s' : CompareState)
    (hpa : printResultsArgsM s none none sortBy reverse statsA percA precA
      = .ok pa)
    (hrun : Compare.runM s true rA nA tA oracle fuel = .caught s') :
    compareM s rA nA tA sortBy reverse statsA percA precA oracle fuel
      = .printedThenInterrupt
          (printResultsM (s'.timers.filter (fun t => pa.timerIds.contains t.id))
            pa.sortBy pa.reverse pa.stats pa.percentage) ∧
    (∀ tm ∈ s'.timers, tm.stats = recomputeStats s.statsReg tm.time) ∧
    Compare.runM s false rA nA tA oracle fuel
      = .raised .keyboardInterrupt s := by
  obtain ⟨⟨slots, number, rfl⟩, hfalse⟩ :=
    runM_caught_spec s rA nA tA oracle fuel s' hrun
  refine ⟨?_, finalizeRun_stats s slots number, hfalse⟩
  unfold compareM
  simp only [hpa, hrun]

/-- Witness for C3: one timer, every call interrupted — `compare` produces
the printed-then-reraised outcome whose table holds the single record with
an empty duration sequence, and the direct run propagates the interrupt. -/
theorem interrupt_capture_spec_witness :
    compareM oneTimerState (.vint 1) (.vint 1) (.vfloat 1) none false none
        none (.vint 2) (fun _ => .interrupt) 3
      = .printedThenInterrupt
          (printResultsM
            ((⟨[⟨0, [], 0, [], false⟩], [], 1⟩ : CompareState).timers.filter
              (fun t =>
                (⟨[0], none, false, [], [], 2⟩ : PrintArgs).timerIds.contains
                  t.id))
            (⟨[0], none, false, [], [], 2⟩ : PrintArgs).sortBy
            (⟨[0], none, false, [], [], 2⟩ : PrintArgs).reverse
            (⟨[0], none, false, [], [], 2⟩ : PrintArgs).stats
            (⟨[0], none, false, [], [], 2⟩ : PrintArgs).percentage) ∧
    (∀ tm ∈ (⟨[⟨0, [], 0, [], false⟩], [], 1⟩ : CompareState).timers,
      tm.stats = recomputeStats oneTimerState.statsReg tm.time) ∧
    Compare.runM oneTimerState false (.vint 1) (.vint 1) (.vfloat 1)
        (fun _ => .interrupt) 3
      = .raised .keyboardInterrupt oneTimerState :=
  interrupt_capture_spec oneTimerState (.vint 1) (.vint 1) (.vfloat 1) none
    false none none (.vint 2) (fun _ => .interrupt) 3
    ⟨[0], none, false, [], [], 2⟩ ⟨[⟨0, [], 0, [], false⟩], [], 1⟩
    (by rfl) (by rfl)

/-! ## The estimation loop's quantitative behaviour (C2)

For the closed-form characterization the oracle is specialized to one whose
calls all return normally, with durations `d : ℕ → ℚ`: then pass `j`
(0-indexed, starting at oracle cursor `c`) consumes the `k` calls
`c + j*k, …, c + j*k + k - 1` and its cumulative time is their sum. -/

/-- An oracle whose every call returns a duration. -/
def okOracle (d : ℕ → ℚ) : ℕ → TimeitEv := fun i => .ok (d i)

/-- Cumulative elapsed time of one calibration pass over `k` timers starting
at oracle cursor `c`. -/
def passSum (d : ℕ → ℚ) (k c : ℕ) : ℚ := ∑ i ∈ Finset.range k, d (c + i)

/-- The iteration count reached after `j` applications of the growth rule,
starting from `n` at cursor `c`. -/
def nAfter (d : ℕ → ℚ) (k : ℕ) : ℤ → ℕ → ℕ → ℤ
  | n, _, 0 => n
  | n, c, j + 1 => nAfter d k (nextN n (passSum d k c)) (c + k) j

/-- `int` truncation agrees with the floor on nonnegative values. -/
lemma pyInt_of_nonneg (q : ℚ) (h : 0 ≤ q) : pyInt q = ⌊q⌋ := by
  simp [pyInt, h]

/-- The growth rule grows `n` by at least the factor 5/4 (plus one) whenever
the pass did not exceed the threshold: doubling when the pass time is 0, and
`int(n * 0.25 / t) + 1 ≥ 5n/4 + 1` when `0 < t ≤ 0.2`. -/
lemma nextN_growth (n : ℤ) (t : ℚ) (hn : 1 ≤ n) (h0 : 0 ≤ t)
    (h5 : t ≤ 1/5) : 5 * n / 4 + 1 ≤ nextN n t := by
  unfold nextN
  by_cases ht : t = 0
  · rw [if_pos ht]
    omega
  · rw [if_neg ht]
    have htpos : 0 < t := lt_of_le_of_ne h0 (Ne.symm ht)
    have harg : (0 : ℚ) ≤ (n : ℚ) * (1/4) / t := by positivity
    rw [pyInt_of_nonneg _ harg]
    have hfloor : 5 * n / 4 ≤ ⌊(n : ℚ) * (1/4) / t⌋ := by
      rw [Int.le_floor]
      have h1 : ((5 * n / 4 : ℤ) : ℚ) ≤ (5 * (n : ℚ)) / 4 := by
        have h2 : (5 * n / 4) * 4 ≤ 5 * n := by omega
        have h3 : ((5 * n / 4 : ℤ) : ℚ) * 4 ≤ 5 * (n : ℚ) := by
          exact_mod_cast h2
        linarith
      have h4 : (5 * (n : ℚ)) / 4 ≤ (n : ℚ) * (1/4) / t := by
        rw [div_le_div_iff (by norm_num) htpos]
        have hnq : (1 : ℚ) ≤ (n : ℚ) := by exact_mod_cast hn
        nlinarith
      linarith
    omega

/-- A pass over an oracle whose durations are nonnegative accumulates a
nonnegative total. -/
lemma passCalls_ok_nonneg (oracle : ℕ → TimeitEv)
    (hnn : ∀ i dd, oracle i = .ok dd → 0 ≤ dd) :
    ∀ (k c : ℕ) (t0 t : ℚ) (c' : ℕ), 0 ≤ t0 →
      passCalls oracle c k t0 = .ok (t, c') → 0 ≤ t := by
  intro k
  induction k with
  | zero =>
    intro c t0 t c' h0 hp
    simp only [passCalls] at hp
    cases hp
    exact h0
  | succ kk ih =>
    intro c t0 t c' h0 hp
    simp only [passCalls] at hp
    cases ho : oracle c with
    | ok dd =>
      simp only [ho] at hp
      exact ih (c + 1) (t0 + dd) t c' (by have := hnn c dd ho; linarith) hp
    | interrupt => simp only [ho] at hp; cases hp
    | err => simp only [ho] at hp; cases hp

/-- The `n` values at which the estimation loop executes passes grow by at
least the factor 5/4 (plus one) from each pass to the next, whenever the
oracle's durations are nonnegative (claim C2's growth, corrected: not a
doubling). -/
lemma estimateNs_chain (oracle : ℕ → TimeitEv) (k : ℕ)
    (hnn : ∀ i dd, oracle i = .ok dd → 0 ≤ dd) :
    ∀ (fuel : ℕ) (n : ℤ) (c : ℕ), 1 ≤ n →
      List.Chain' (fun a b => 5 * a / 4 + 1 ≤ b)
        (estimateNs oracle k fuel n c) := by
  intro fuel
  induction fuel with
  | zero => intro n c _; simp [estimateNs]
  | succ f ih =>
    intro n c hn
    simp only [estimateNs]
    cases hp : passCalls oracle c k 0 with
    | error e => simp
    | ok tc =>
      obtain ⟨t, c'⟩ := tc
      simp only
      by_cases hgt : (1/5 : ℚ) < t
      · rw [if_pos hgt]
        simp
      · rw [if_neg hgt]
        have h0t : 0 ≤ t :=
          passCalls_ok_nonneg oracle hnn k c 0 t c' le_rfl hp
        have hgrow := nextN_growth n t hn h0t (le_of_not_lt hgt)
        have hn' : 1 ≤ nextN n t := by omega
        rw [List.chain'_cons']
        refine ⟨?_, ih (nextN n t) c' hn'⟩
        intro b hb
        cases f with
        | zero => simp [estimateNs] at hb
        | succ f2 =>
          simp only [estimateNs, List.head?_cons, Option.mem_some_iff] at hb
          omega

/-- Peeling the first timer call off a pass sum. -/
lemma passSum_succ (d : ℕ → ℚ) (k c : ℕ) :
    passSum d (k + 1) c = d c + passSum d k (c + 1) := by
  unfold passSum
  rw [Finset.sum_range_succ']
  have harg : ∀ i ∈ Finset.range k, d (c + (i + 1)) = d (c + 1 + i) := by
    intro i _
    congr 1
    omega
  rw [Finset.sum_congr rfl harg]
  simp [add_comm]

/-- On an all-normal oracle, one calibration pass returns the pass sum and
advances the cursor by the number of timers. -/
lemma passCalls_okOracle (d : ℕ → ℚ) :
    ∀ (k c : ℕ) (t0 : ℚ),
      passCalls (okOracle d) c k t0 = .ok (t0 + passSum d k c, c + k) := by
  intro k
  induction k with
  | zero => intro c t0; simp [passCalls, passSum]
  | succ kk ih =>
    intro c t0
    simp only [passCalls, okOracle]
    rw [ih (c + 1) (t0 + d c), passSum_succ]
    have h1 : t0 + d c + passSum d kk (c + 1)
        = t0 + (d c + passSum d kk (c + 1)) := by ring
    have h2 : c + 1 + kk = c + (kk + 1) := by omega
    rw [h1, h2]

/-- First-exceed characterization of the estimation loop on an all-normal
oracle: if the passes before index `J` stay at or below the 0.2s threshold
and pass `J` exceeds it, the loop stops exactly at pass `J` with
`number = max(round(n_J * time / t_J / repeat), 1)` — `n_J` being the
iteration count reached by the growth rule — having consumed exactly
`(J + 1) * k` timing calls. -/
lemma estimateLoop_first_exceed (d : ℕ → ℚ) (k : ℕ) (timeB : ℚ) (rep : ℤ) :
    ∀ (J fuel : ℕ) (n : ℤ) (c : ℕ), J < fuel →
      (∀ j, j < J → passSum d k (c + j * k) ≤ 1/5) →
      1/5 < passSum d k (c + J * k) →
      estimateLoop (okOracle d) k timeB rep fuel n c
        = .done (max (pyRound ((nAfter d k n c J : ℚ) * timeB
            / passSum d k (c + J * k) / (rep : ℚ))) 1) (c + (J + 1) * k) := by
  intro J
  induction J with
  | zero =>
    intro fuel n c hf hb hs
    obtain ⟨f, rfl⟩ : ∃ f, fuel = f + 1 := ⟨fuel - 1, by omega⟩
    simp only [estimateLoop]
    rw [passCalls_okOracle]
    simp only [zero_add]
    have hs0 : (1/5 : ℚ) < passSum d k c := by simpa using hs
    rw [if_pos hs0]
    have he1 : (nAfter d k n c 0 : ℚ) = (n : ℚ) := by simp [nAfter]
    have he2 : c + 0 * k = c := by omega
    rw [he2] at hs ⊢
    rw [he1]
    have he3 : c + (0 + 1) * k = c + k := by omega
    rw [he3]
  | succ J ih =>
    intro fuel n c hf hb hs
    obtain ⟨f, rfl⟩ : ∃ f, fuel = f + 1 := ⟨fuel - 1, by omega⟩
    simp only [estimateLoop]
    rw [passCalls_okOracle]
    simp only [zero_add]
    have hb0 : passSum d k c ≤ 1/5 := by
      have := hb 0 (by omega)
      simpa using this
    rw [if_neg (not_lt.mpr hb0)]
    have hstep := ih f (nextN n (passSum d k c)) (c + k) (by omega)
      (fun j hj => by
        have := hb (j + 1) (by omega)
        have harg : c + (j + 1) * k = c + k + j * k := by ring
        rwa [harg] at this)
      (by
        have harg : c + (J + 1) * k = c + k + J * k := by ring
        rwa [harg] at hs)
    rw [hstep]
    have ha1 : nAfter d k (nextN n (passSum d k c)) (c + k) J
        = nAfter d k n c (J + 1) := by
      simp [nAfter]
    have ha2 : c + k + J * k = c + (J + 1) * k := by ring
    have ha3 : c + k + (J + 1) * k = c + (J + 1 + 1) * k := by ring
    rw [ha1, ha2, ha3]

/-- Concrete calibration durations: passes of 0.2s, 0.2s, 0.3s. -/
def cexDur : ℕ → ℚ :=
  fun i => if i = 0 then 1/5 else if i = 1 then 1/5 else 3/10

/-- The oracle returning those durations on every call. -/
def cexEstOracle : ℕ → TimeitEv := okOracle cexDur

/-- **C2, counterexample.**  One timer whose calibration calls take 0.2s,
0.2s, 0.3s: the loop executes passes at `n = 1, 2, 3` — the second growth
step goes from 2 to `int(2 * 0.25 / 0.2) + 1 = 3 < 4`, so `n` does *not*
double on every pass as the claim states; the loop stops on the third pass
(the first with `t > 0.2`), and with `time = 1`, `repeat = 1` yields
`number = max(round(3 * 1 / 0.3 / 1), 1) = 10`. -/
theorem estimation_doubling_cex :
    estimateNs cexEstOracle 1 10 1 0 = [1, 2, 3] ∧
    ¬ List.Chain' (fun a b : ℤ => 2 * a ≤ b)
      (estimateNs cexEstOracle 1 10 1 0) ∧
    estimateLoop cexEstOracle 1 1 1 10 1 0 = .done 10 3 := by
  have h1 : estimateNs cexEstOracle 1 10 1 0 = [1, 2, 3] := by
    norm_num [estimateNs, passCalls, cexEstOracle, okOracle, cexDur, nextN,
      pyInt]
  refine ⟨h1, ?_, ?_⟩
  · rw [h1]
    simp only [List.chain'_cons, List.chain'_singleton, and_true]
    omega
  · norm_num [estimateLoop, passCalls, cexEstOracle, okOracle, cexDur,
      nextN, pyInt, pyRound]

/-- **C2, amended.**  When `number` is auto-estimated on an oracle whose
timed calls all return (durations `d`, nonnegative): the estimation loop
starts at `n = 1`; it stops at the *first* pass whose cumulative elapsed
time across the `k` selected timers exceeds 0.2s, setting
`number = max(round(n * time / t / repeat), 1)` for that pass's `n` and `t`
and consuming exactly `(J+1) * k` calls; when a pass does not exceed the
threshold, `n` grows by `n ↦ 2n` if the pass time is 0 and by
`n ↦ int(n * 0.25 / t) + 1` otherwise — so consecutive pass counts satisfy
`n' ≥ 5n/4 + 1` (growth by at least the factor 5/4, plus one), but not
necessarily `n' ≥ 2n`. -/
theorem estimation_spec (d : ℕ → ℚ) (k : ℕ) (timeB : ℚ) (rep : ℤ)
    (fuel J c : ℕ) (hfuel : J < fuel) (hnn : ∀ i, 0 ≤ d i)
    (hbefore : ∀ j, j < J → passSum d k (c + j * k) ≤ 1/5)
    (hstop : 1/5 < passSum d k (c + J * k)) :
    estimateLoop (okOracle d) k timeB rep fuel 1 c
      = .done (max (pyRound ((nAfter d k 1 c J : ℚ) * timeB
          / passSum d k (c + J * k) / (rep : ℚ))) 1) (c + (J + 1) * k) ∧
    List.Chain' (fun a b => 5 * a / 4 + 1 ≤ b)
      (estimateNs (okOracle d) k fuel 1 c) :=
  ⟨estimateLoop_first_exceed d k timeB rep J fuel 1 c hfuel hbefore hstop,
   estimateNs_chain (okOracle d) k
     (by
       intro i dd h
       simp only [okOracle, TimeitEv.ok.injEq] at h
       rw [← h]
       exact hnn i)
     fuel 1 c le_rfl⟩

/-- Witness for C2 (amended), at the counterexample durations: the loop
stops at pass `J = 2` with the stated `number` and call count, and the
visited `n` sequence satisfies the 5/4-growth chain. -/
theorem estimation_spec_witness :
    estimateLoop (okOracle cexDur) 1 1 1 10 1 0
      = .done (max (pyRound ((nAfter cexDur 1 1 0 2 : ℚ) * 1
          / passSum cexDur 1 (0 + 2 * 1) / ((1 : ℤ) : ℚ))) 1) (0 + (2 + 1) * 1) ∧
    List.Chain' (fun a b => 5 * a / 4 + 1 ≤ b)
      (estimateNs (okOracle cexDur) 1 10 1 0) :=
  estimation_spec cexDur 1 1 1 10 2 0 (by omega)
    (by
      intro i
      unfold cexDur
      split
      · norm_num
      · split <;> norm_num)
    (by
      intro j hj
      interval_cases j <;>
        norm_num [passSum, Finset.sum_range_one, cexDur])
    (by norm_num [passSum, Finset.sum_range_one, cexDur])

/-- **C9, counterexample.**  Out-of-range numeric run arguments do *not*
raise: a run with `repeat = 0` (< 1) completes normally — the value is
clamped to 1 and one trial is measured; a run with a negative `time` budget
also completes normally — the budget is clamped to 0 and the estimation
yields `number = max(round(0), 1) = 1`.  No configuration error is surfaced
for either invalid range. -/
theorem run_range_validation_cex :
    Compare.runM oneTimerState false (.vint 0) (.vint 2) (.vfloat 1)
        (fun _ => .ok 1) 3
      = .ok ⟨[⟨0, [1/2], 1, [], false⟩], [], 2⟩ ∧
    Compare.runM oneTimerState false (.vint 1) (.vint 0) (.vfloat (-1))
        (fun _ => .ok 1) 3
      = .ok ⟨[⟨0, [1], 1, [], false⟩], [], 1⟩ := by
  constructor <;>
    norm_num [Compare.runM, pyIntArg, pyRealArg, runCore, measureLoop,
      trialLoop, finalizeRun, recomputeStats, oneTimerState, List.isEmpty,
      estimateLoop, passCalls, pyRound, nextN, pyInt]

/-- **C9, amended.**  Type-invalid run arguments fail fast: a non-`int`
`repeat` or `number`, or a non-real `time`, raises `TypeError` synchronously
— before any timing call, for every oracle, with the state unchanged.
Out-of-range numeric values do *not* raise a configuration error: `repeat < 1`
is clamped to 1 and a negative `time` budget to 0.0, and the run proceeds
exactly as with the clamped value. -/
theorem run_validation_spec (s : CompareState) (catchInt : Bool)
    (oracle : ℕ → TimeitEv) (fuel : ℕ) (nA tA : PyArg) (r n0 : ℤ) (q : ℚ) :
    (∀ qr : ℚ, Compare.runM s catchInt (.vfloat qr) nA tA oracle fuel
      = .raised .typeError s) ∧
    (Compare.runM s catchInt .vother nA tA oracle fuel
      = .raised .typeError s) ∧
    (∀ qn : ℚ, Compare.runM s catchInt (.vint r) (.vfloat qn) tA oracle fuel
      = .raised .typeError s) ∧
    (Compare.runM s catchInt (.vint r) .vother tA oracle fuel
      = .raised .typeError s) ∧
    (Compare.runM s catchInt (.vint r) (.vint n0) .vother oracle fuel
      = .raised .typeError s) ∧
    (r < 1 → Compare.runM s catchInt (.vint r) nA tA oracle fuel
      = Compare.runM s catchInt (.vint 1) nA tA oracle fuel) ∧
    (q < 0 →
      Compare.runM s catchInt (.vint r) (.vint n0) (.vfloat q) oracle fuel
        = Compare.runM s catchInt (.vint r) (.vint n0) (.vfloat 0) oracle
            fuel) := by
  refine ⟨fun qr => rfl, rfl, fun qn => rfl, rfl, rfl, ?_, ?_⟩
  · intro hr
    unfold Compare.runM
    simp only [pyIntArg,
      show (if r < 1 then (1 : ℤ) else r) = 1 from by omega,
      show (if (1 : ℤ) < 1 then (1 : ℤ) else 1) = 1 from by omega]
  · intro hq
    unfold Compare.runM
    simp only [pyIntArg, pyRealArg,
      show (if q < 0 then (0 : ℚ) else q) = 0 from if_pos hq,
      show (if (0 : ℚ) < 0 then (0 : ℚ) else 0) = 0 from by simp]

/-- Witness for C9 (amended): `repeat = 0` behaves exactly as `repeat = 1`,
`time = -1` exactly as `time = 0`, and a non-`int` `repeat` raises
`TypeError`. -/
theorem run_validation_spec_witness :
    (Compare.runM oneTimerState false (.vint 0) (.vint 2) (.vfloat 1)
        (fun _ => .ok 1) 3
      = Compare.runM oneTimerState false (.vint 1) (.vint 2) (.vfloat 1)
        (fun _ => .ok 1) 3) ∧
    (Compare.runM oneTimerState false (.vint 1) (.vint 2) (.vfloat (-1))
        (fun _ => .ok 1) 3
      = Compare.runM oneTimerState false (.vint 1) (.vint 2) (.vfloat 0)
        (fun _ => .ok 1) 3) ∧
    (Compare.runM oneTimerState false .vother (.vint 2) (.vfloat 1)
        (fun _ => .ok 1) 3 = .raised .typeError oneTimerState) :=
  ⟨(run_validation_spec oneTimerState false (fun _ => .ok 1) 3 (.vint 2)
      (.vfloat 1) 0 2 (-1)).2.2.2.2.2.1 (by omega),
   (run_validation_spec oneTimerState false (fun _ => .ok 1) 3 (.vint 2)
      (.vfloat 1) 1 2 (-1)).2.2.2.2.2.2 (by norm_num),
   (run_validation_spec oneTimerState false (fun _ => .ok 1) 3 (.vint 2)
      (.vfloat 1) 1 2 (-1)).2.1⟩
